import Mathlib

/-!
Verification development for the HidroCL-OOP extraction pipeline.

The repository snapshot contains the two R areal-statistics scripts
(`hidrocl/products/Rfiles/WeightedMeanExtractionGFS.R` and
`hidrocl/products/Rfiles/WeightedPercExtraction.R`) together with the
notebooks and changelog that exercise the Python package.  The R scripts
are embedded below directly; the Python run controller and variable
objects are not part of the snapshot and are modelled from the spec
(and, where the notebooks record concrete behaviour, from those records).
-/

namespace HidroCL

/-- A raster cell as seen by the exactextractr summary callbacks: the cell
value (`none` encodes an NA / missing pixel) and the cell-to-polygon
coverage fraction. -/
abbrev RCell : Type := Option ℚ × ℚ

/-- R rounding as used by `round(...)` in the extraction scripts: IEC 60559
semantics, rounding a half-integer to the even neighbour. -/
def rround (q : ℚ) : ℤ :=
  if Int.fract q = 1 / 2 then (if Even ⌊q⌋ then ⌊q⌋ else ⌊q⌋ + 1) else round q

/-- `custom_mean` from `WeightedMeanExtractionGFS.R`: drop the NA cells,
then `round(sum(vals * covf) / sum(covf))`. -/
def custom_mean (cells : List RCell) : ℤ :=
  let kept := cells.filter (fun c => c.1.isSome)
  rround (((kept.map (fun c => c.1.getD 0 * c.2)).sum) / ((kept.map Prod.snd).sum))

/-- `count_na` from `WeightedMeanExtractionGFS.R`:
`round((sum(as.numeric(!is.na(values)) * coverage_fractions) /
sum(coverage_fractions)) * 1000)`. -/
def count_na_gfs (cells : List RCell) : ℤ :=
  rround ((cells.map (fun c => (if c.1.isSome then (1 : ℚ) else 0) * c.2)).sum
      / (cells.map Prod.snd).sum * 1000)

/-- `custom_sum` from `WeightedPercExtraction.R`.  The mask `values == 1` is
`TRUE` on value-1 cells and `NA` on missing cells, so R subsetting keeps the
value-1 cells and keeps the missing cells as `NA` entries; the products of
the kept `NA` entries are then discarded by `sum(..., na.rm = T)`.  When the
kept vector is empty the result stays at the initial `total <- 0`. -/
def custom_sum (cells : List RCell) : ℤ :=
  let totalPre := (cells.map Prod.snd).sum
  let kept := cells.filter (fun c => decide (c.1 = some 1) || decide (c.1 = none))
  if 0 < kept.length then
    rround (100 * (kept.filterMap (fun c => c.1.map (fun v => v * c.2))).sum / totalPre)
  else 0

/-- `count_na` from `WeightedPercExtraction.R`:
`round((sum(!is.na(values) * coverage_fractions) / sum(coverage_fractions)) * 1000)`.
In R, unary `!` binds more loosely than `*`, so the summand is the logical
vector `!(is.na(values) * coverage_fractions)`, which is `TRUE` exactly when
`is.na(value) * coverage` is zero, and `sum` then counts those cells. -/
def count_na_perc (cells : List RCell) : ℤ :=
  rround ((cells.map (fun c =>
        if (if c.1.isNone then c.2 else 0) = 0 then (1 : ℚ) else 0)).sum
      / (cells.map Prod.snd).sum * 1000)

/-- Total coverage-weighted area of one polygon (spec section 4.4). -/
def totalCoverage (cells : List RCell) : ℚ := (cells.map Prod.snd).sum

/-- Coverage-weighted area of the non-missing cells of one polygon. -/
def validCoverage (cells : List RCell) : ℚ :=
  ((cells.filter (fun c => c.1.isSome)).map Prod.snd).sum

/-- Spec-side formula for the valid fraction: fraction of total
coverage-weighted area with non-missing values, scaled by 1000 and rounded. -/
def validFracScaled (cells : List RCell) : ℤ :=
  rround (validCoverage cells / totalCoverage cells * 1000)

/-- Spec-side formula for mean-type variables: the coverage-weighted mean of
the non-missing cell values. -/
def weightedMeanSpec (cells : List RCell) : ℚ :=
  (cells.filterMap (fun c => c.1.map (fun v => v * c.2))).sum / validCoverage cells

/-- Spec-side formula for percent-type variables: the coverage-weighted
extent of the value-1 cells. -/
def value1Extent (cells : List RCell) : ℚ :=
  ((cells.filter (fun c => decide (c.1 = some 1))).map Prod.snd).sum

lemma rround_bounds (q : ℚ) : ⌊q⌋ ≤ rround q ∧ rround q ≤ ⌈q⌉ := by
  unfold rround
  split
  · next h =>
    have hfl : (⌊q⌋ : ℚ) < q := by
      have h0 : 0 < Int.fract q := by rw [h]; norm_num
      have := Int.fract_add_floor q
      nlinarith [this]
    have hceil : ⌊q⌋ + 1 ≤ ⌈q⌉ := by
      have : (⌊q⌋ : ℚ) < (⌈q⌉ : ℚ) := lt_of_lt_of_le hfl (Int.le_ceil q)
      exact_mod_cast Int.add_one_le_iff.mpr (by exact_mod_cast this)
    split
    · exact ⟨le_refl _, le_trans (by omega) hceil⟩
    · exact ⟨by omega, hceil⟩
  · unfold round
    split
    · exact ⟨le_refl _, Int.floor_le_ceil q⟩
    · exact ⟨Int.floor_le_ceil q, le_refl _⟩

lemma rround_nonneg {q : ℚ} (h : 0 ≤ q) : 0 ≤ rround q :=
  le_trans (Int.le_floor.mpr (by exact_mod_cast h)) (rround_bounds q).1

lemma rround_le_of_le {q : ℚ} {n : ℤ} (h : q ≤ n) : rround q ≤ n :=
  le_trans (rround_bounds q).2 (Int.ceil_le.mpr h)

lemma sum_indicator_eq_validCoverage (cells : List RCell) :
    (cells.map (fun c => (if c.1.isSome then (1 : ℚ) else 0) * c.2)).sum
      = validCoverage cells := by
  unfold validCoverage
  induction cells with
  | nil => simp
  | cons c cs ih =>
    rcases hv : c.1 with _ | v <;> simp [List.filter_cons, hv] at ih ⊢ <;> rw [ih]

lemma validCoverage_nonneg (cells : List RCell) (hnn : ∀ c ∈ cells, 0 ≤ c.2) :
    0 ≤ validCoverage cells := by
  refine List.sum_nonneg ?_
  intro x hx
  obtain ⟨c, hc, rfl⟩ := List.mem_map.mp hx
  exact hnn c (List.mem_of_mem_filter hc)

lemma validCoverage_le_totalCoverage (cells : List RCell)
    (hnn : ∀ c ∈ cells, 0 ≤ c.2) :
    validCoverage cells ≤ totalCoverage cells := by
  rw [← sum_indicator_eq_validCoverage]
  refine List.sum_le_sum ?_
  intro c hc
  rcases hv : c.1 with _ | v
  · simpa [hv] using hnn c hc
  · simp [hv]

/-- The GFS-script pixel-count summary agrees with the spec formula and, for
nonnegative coverage fractions with positive total, lies within 0..1000.
(This fails for the percent-script variant: see the divergence theorem
below.) -/
lemma count_na_gfs_spec (cells : List RCell)
    (hnn : ∀ c ∈ cells, 0 ≤ c.2) (hpos : 0 < totalCoverage cells) :
    count_na_gfs cells = validFracScaled cells
    ∧ 0 ≤ count_na_gfs cells ∧ count_na_gfs cells ≤ 1000 := by
  have heq : count_na_gfs cells = validFracScaled cells := by
    unfold count_na_gfs validFracScaled totalCoverage
    rw [sum_indicator_eq_validCoverage]
  have h0 : (0 : ℚ) ≤ validCoverage cells / totalCoverage cells * 1000 := by
    have := validCoverage_nonneg cells hnn
    positivity
  have h1 : validCoverage cells / totalCoverage cells * 1000 ≤ ((1000 : ℤ) : ℚ) := by
    have hle : validCoverage cells / totalCoverage cells ≤ 1 :=
      (div_le_one hpos).mpr (validCoverage_le_totalCoverage cells hnn)
    push_cast
    nlinarith
  refine ⟨heq, ?_, ?_⟩
  · rw [heq]; exact rround_nonneg h0
  · rw [heq]; exact rround_le_of_le h1

lemma rround_intCast (n : ℤ) : rround ((n : ℚ)) = n := by
  unfold rround
  rw [Int.fract_intCast]
  norm_num

lemma rround_eq_of {q : ℚ} {n : ℤ} (h : q = (n : ℚ)) : rround q = n := by
  rw [h, rround_intCast]

lemma sum_kept_products (cells : List RCell) :
    ((cells.filter (fun c => c.1.isSome)).map (fun c => c.1.getD 0 * c.2)).sum
      = (cells.filterMap (fun c => c.1.map (fun v => v * c.2))).sum := by
  induction cells with
  | nil => simp
  | cons c cs ih =>
    rcases hv : c.1 with _ | v <;>
      simp [List.filter_cons, List.filterMap_cons, hv, ih]

lemma sum_kept_value1 (cells : List RCell) :
    ((cells.filter (fun c => decide (c.1 = some 1) || decide (c.1 = none))).filterMap
        (fun c => c.1.map (fun v => v * c.2))).sum
      = value1Extent cells := by
  unfold value1Extent
  induction cells with
  | nil => simp
  | cons c cs ih =>
    rcases hv : c.1 with _ | v
    · simp [List.filter_cons, hv, ih]
    · by_cases h1 : v = 1 <;> simp [List.filter_cons, List.filterMap_cons, hv, h1, ih]

/-- Modelled from the spec: the Extraction Engine Adapter parses the engine
output values into the per-catchment mappings unchanged, introducing no
rounding beyond the engine precision; the Python adapter sources are not in
the repository snapshot. -/
def adapter_parse (v : ℤ) : ℤ := v

/-- Claim C6: the valid fraction should be the fraction of total
coverage-weighted area with non-missing values, scaled by 1000 and rounded,
hence within 0..1000.  `WeightedMeanExtractionGFS.R` computes exactly that,
but in `WeightedPercExtraction.R` the unary `!` applies after `*`, so the
script counts cells instead of weighting them: one valid cell of coverage
1/2 already yields 2000, outside 0..1000. -/
theorem c6_valid_fraction_divergence :
    count_na_gfs [(some 1, 1 / 2)] = 1000
    ∧ count_na_perc [(some 1, 1 / 2)] = 2000
    ∧ ¬(count_na_perc [(some 1, 1 / 2)] ≤ 1000) := by
  have hgfs : count_na_gfs [(some 1, 1 / 2)] = 1000 := by
    unfold count_na_gfs
    refine rround_eq_of ?_
    norm_num
  have hperc : count_na_perc [(some 1, 1 / 2)] = 2000 := by
    unfold count_na_perc
    refine rround_eq_of ?_
    simp only [List.map_cons, List.map_nil, Option.isNone_some]
    norm_num
  exact ⟨hgfs, hperc, by rw [hperc]; norm_num⟩

/-- Claim C7: the engine value statistic is the rounded coverage-weighted
aggregate of the raster cells — the weighted mean of the non-missing cells
for mean-type variables, and 100 times the weighted extent of the value-1
cells over the total weighted coverage for percent-type variables — and the
Adapter (modelled from the spec, sources absent) adds no further rounding. -/
theorem c7_engine_aggregation (cells : List RCell)
    (hv : 0 < validCoverage cells) (ht : 0 < totalCoverage cells) :
    custom_mean cells = rround (weightedMeanSpec cells)
    ∧ custom_sum cells = rround (100 * value1Extent cells / totalCoverage cells)
    ∧ adapter_parse (custom_mean cells) = custom_mean cells := by
  refine ⟨?_, ?_, rfl⟩
  · simp only [custom_mean, weightedMeanSpec, validCoverage]
    rw [sum_kept_products]
  · simp only [custom_sum, totalCoverage]
    split
    · rw [sum_kept_value1]
    · next hlen =>
      have hnil : cells.filter (fun c => decide (c.1 = some 1) || decide (c.1 = none)) = [] := by
        cases hfe : cells.filter (fun c => decide (c.1 = some 1) || decide (c.1 = none)) with
        | nil => rfl
        | cons a l => rw [hfe] at hlen; simp at hlen
      have hext : value1Extent cells = 0 := by
        unfold value1Extent
        have : cells.filter (fun c => decide (c.1 = some 1)) = [] := by
          refine List.filter_eq_nil_iff.mpr ?_
          intro a ha hpa
          have : a ∈ cells.filter (fun c => decide (c.1 = some 1) || decide (c.1 = none)) := by
            refine List.mem_filter.mpr ⟨ha, ?_⟩
            simp only [Bool.or_eq_true]
            exact Or.inl hpa
          rw [hnil] at this
          simp at this
        rw [this]
        simp
      rw [hext]
      have : (100 : ℚ) * 0 / (cells.map Prod.snd).sum = ((0 : ℤ) : ℚ) := by norm_num
      rw [this, rround_intCast]

/-- Claim C10: in the percent-type extraction a polygon with no value-1 cell
— in particular an all-missing polygon — yields the value 0, not a missing
sentinel. -/
theorem c10_percent_zero_when_no_value1 (cells : List RCell)
    (h : ∀ c ∈ cells, c.1 ≠ some 1) :
    custom_sum cells = 0 := by
  simp only [custom_sum]
  split
  · have hext : value1Extent cells = 0 := by
      unfold value1Extent
      have : cells.filter (fun c => decide (c.1 = some 1)) = [] :=
        List.filter_eq_nil_iff.mpr (fun a ha hpa => h a ha (of_decide_eq_true hpa))
      rw [this]
      simp
    rw [sum_kept_value1, hext]
    have : (100 : ℚ) * 0 / (cells.map Prod.snd).sum = ((0 : ℤ) : ℚ) := by norm_num
    rw [this, rround_intCast]
  · rfl

/-- Witness for the aggregation claim: a polygon with two valid cells and
one missing cell. -/
theorem c7_engine_aggregation_witness :
    0 < validCoverage [(some 5, 1 / 2), (none, 1 / 4), (some 1, 1 / 4)]
    ∧ 0 < totalCoverage [(some 5, 1 / 2), (none, 1 / 4), (some 1, 1 / 4)]
    ∧ (custom_mean [(some 5, 1 / 2), (none, 1 / 4), (some 1, 1 / 4)]
        = rround (weightedMeanSpec [(some 5, 1 / 2), (none, 1 / 4), (some 1, 1 / 4)])
      ∧ custom_sum [(some 5, 1 / 2), (none, 1 / 4), (some 1, 1 / 4)]
        = rround (100 * value1Extent [(some 5, 1 / 2), (none, 1 / 4), (some 1, 1 / 4)]
            / totalCoverage [(some 5, 1 / 2), (none, 1 / 4), (some 1, 1 / 4)])
      ∧ adapter_parse (custom_mean [(some 5, 1 / 2), (none, 1 / 4), (some 1, 1 / 4)])
        = custom_mean [(some 5, 1 / 2), (none, 1 / 4), (some 1, 1 / 4)]) :=
  ⟨by norm_num [validCoverage, List.filter_cons],
   by norm_num [totalCoverage],
   c7_engine_aggregation _ (by norm_num [validCoverage, List.filter_cons])
     (by norm_num [totalCoverage])⟩

/-- Witness for the percent-zero claim: a polygon whose only cell is
missing still yields the value 0. -/
theorem c10_percent_zero_when_no_value1_witness :
    (∀ c ∈ [((none : Option ℚ), (1 / 2 : ℚ))], c.1 ≠ some 1)
    ∧ custom_sum [(none, 1 / 2)] = 0 :=
  ⟨by simp, c10_percent_zero_when_no_value1 _ (by simp)⟩

/-- Output header written by `WeightedPercExtraction.R`:
`names(result) <- c("gauge_id", "sum", "pc")`. -/
def percOutputHeader : List String := ["gauge_id", "sum", "pc"]

/-- Output header written by `WeightedMeanExtractionGFS.R` for a raster with
k bands: the two lapply loops name one `mean i` and one `pc i` column per
band and the final merge joins them after the shared `gauge_id` key. -/
def gfsOutputHeader (k : ℕ) : List String :=
  "gauge_id" :: ((List.range k).map (fun i => "mean" ++ toString (i + 1))
    ++ (List.range k).map (fun i => "pc" ++ toString (i + 1)))

/-- Output rows of `WeightedPercExtraction.R`: one row per polygon of the
vector file, holding gauge id, value and pixel count. -/
def percOutputTable (polys : List (ℕ × List RCell)) : List (ℕ × ℤ × ℤ) :=
  polys.map (fun p => (p.1, custom_sum p.2, count_na_perc p.2))

/-- Output rows of `WeightedMeanExtractionGFS.R`: one row per polygon, with
one weighted mean and one pixel count per band. -/
def gfsOutputTable (polys : List (ℕ × List (List RCell))) : List (ℕ × List ℤ × List ℤ) :=
  polys.map (fun p => (p.1, p.2.map custom_mean, p.2.map count_na_gfs))

/-- Modelled from the spec: the success signal the Adapter derives from one
invocation of the external engine; the Python adapter sources are not in
the repository snapshot. -/
structure EngineExit where
  exitCode : ℕ
  outputExists : Bool
  outputNonEmpty : Bool
  outputParseable : Bool

/-- Modelled from the spec: exit code 0 together with an existing, non-empty,
parseable output file signals a successful engine invocation. -/
def engineSuccess (e : EngineExit) : Bool :=
  (e.exitCode == 0) && e.outputExists && e.outputNonEmpty && e.outputParseable

/-- Claim C8 counterexample: for a two-band raster the GFS mean script
writes five columns, not the three-column layout the claim states. -/
theorem c8_counterexample_two_band_header : (gfsOutputHeader 2).length ≠ 3 := by
  simp [gfsOutputHeader]

/-- Claim C8 as amended: one output row per catchment; the percent script
writes exactly the columns gauge_id, sum, pc; the GFS mean script writes
gauge_id plus one mean column and one pixel-count column per band (hence the
three-column layout exactly for a single-band raster); and the Adapter
(modelled from the spec) treats exit code 0 with an existing, non-empty,
parseable output as success. -/
theorem c8_output_contract :
    percOutputHeader = ["gauge_id", "sum", "pc"]
    ∧ gfsOutputHeader 1 = ["gauge_id", "mean1", "pc1"]
    ∧ (∀ k : ℕ, (gfsOutputHeader k).length = 1 + 2 * k)
    ∧ (∀ polys : List (ℕ × List RCell), (percOutputTable polys).length = polys.length)
    ∧ (∀ polys : List (ℕ × List (List RCell)), (gfsOutputTable polys).length = polys.length)
    ∧ (∀ e : EngineExit, engineSuccess e = true ↔
        (e.exitCode = 0 ∧ e.outputExists = true ∧ e.outputNonEmpty = true
          ∧ e.outputParseable = true)) := by
  refine ⟨rfl, rfl, ?_, ?_, ?_, ?_⟩
  · intro k
    simp [gfsOutputHeader]
    omega
  · intro polys
    simp [percOutputTable]
  · intro polys
    simp [gfsOutputTable]
  · intro e
    simp [engineSuccess, and_assoc]

/-- Modelled from the spec: one Catalog Row, keyed by the Scene Identifier
(encoded as a natural number ordered chronologically) with the per-catchment
values; the Python catalog sources (hidroclabc HidroCLVariable) are not in
the repository snapshot. -/
structure CatalogRow where
  key : ℕ
  vals : List ℤ
deriving DecidableEq

/-- Modelled from the spec: the Catalog Table pair of one variable — the
value table and the valid-fraction table. -/
structure TablePair where
  value_table : List CatalogRow
  fraction_table : List CatalogRow
deriving DecidableEq

/-- Modelled from the spec: the Scene Identifiers already present in a
table, in row order. -/
def existing_keys (t : List CatalogRow) : List ℕ := t.map CatalogRow.key

/-- Modelled from the spec: the outcome of one external-engine invocation —
the parsed per-catchment values and valid fractions, or a scene-scoped
failure (EngineInvocationError / EngineOutputError). -/
inductive EngineResult where
  | ok (vals fracs : List ℤ) : EngineResult
  | engineError : EngineResult
deriving DecidableEq

/-- Whether an engine invocation succeeded. -/
def EngineResult.isOk : EngineResult → Bool
  | .ok _ _ => true
  | .engineError => false

/-- Modelled from the spec: the collaborators of one run — the engine
outcome per scene and whether persisting the appended pair succeeds for a
scene (a false value models the PairConsistencyError situation of section
4.5, handled by rolling the pair back and halting the run). -/
structure RunEnv where
  engine : ℕ → EngineResult
  persistOk : ℕ → Bool

/-- Modelled from the spec: the Run Controller state — the table pair, the
append-only log of (scene, succeeded) entries, and whether a fatal
PairConsistencyError has halted the run. -/
structure RunState where
  tables : TablePair
  log : List (ℕ × Bool)
  halted : Bool
deriving DecidableEq

/-- Modelled from the spec (Reconciler, section 4.3): the scene identifiers
available but not yet in the catalog, in ascending order, optionally
truncated to the first limit entries. -/
def pending (keys : List ℕ) (avail : List ℕ) (limit : Option ℕ) : List ℕ :=
  let p := List.insertionSort (· ≤ ·) (avail.filter (fun s => !decide (s ∈ keys)))
  match limit with
  | none => p
  | some n => p.take n

/-- Modelled from the spec (sections 4.4 to 4.6): processing of one Work
Item.  An engine failure is logged and skipped; on success the Merger
appends the scene row to both tables; if persisting the pair fails the pair
is rolled back and the run is halted (PairConsistencyError). -/
def stepScene (env : RunEnv) (st : RunState) (s : ℕ) : RunState :=
  match env.engine s with
  | .engineError => { st with log := st.log ++ [(s, false)] }
  | .ok vals fracs =>
    if env.persistOk s then
      { st with
        tables := { value_table := st.tables.value_table ++ [⟨s, vals⟩],
                    fraction_table := st.tables.fraction_table ++ [⟨s, fracs⟩] },
        log := st.log ++ [(s, true)] }
    else
      { st with log := st.log ++ [(s, false)], halted := true }

/-- Modelled from the spec: the Run Controller loop over the work-list; a
halted run processes no further scene. -/
def runFrom (env : RunEnv) (st : RunState) : List ℕ → RunState
  | [] => st
  | s :: rest => if st.halted then st else runFrom env (stepScene env st s) rest

/-- Modelled from the spec: one `run(limit)` invocation over the scenes
available in the product directory, starting from the persisted table
pair. -/
def run (env : RunEnv) (avail : List ℕ) (limit : Option ℕ) (tables : TablePair) : RunState :=
  runFrom env ⟨tables, [], false⟩ (pending (existing_keys tables.value_table) avail limit)

lemma stepScene_keys_eq (env : RunEnv) (st : RunState) (s : ℕ)
    (h : existing_keys st.tables.value_table = existing_keys st.tables.fraction_table) :
    existing_keys (stepScene env st s).tables.value_table
      = existing_keys (stepScene env st s).tables.fraction_table := by
  unfold stepScene existing_keys
  unfold existing_keys at h
  rcases env.engine s with _ | _
  · by_cases hp : env.persistOk s <;> simp [hp, h]
  · simpa using h

lemma runFrom_keys_eq (env : RunEnv) (l : List ℕ) (st : RunState)
    (h : existing_keys st.tables.value_table = existing_keys st.tables.fraction_table) :
    existing_keys (runFrom env st l).tables.value_table
      = existing_keys (runFrom env st l).tables.fraction_table := by
  induction l generalizing st with
  | nil => simpa using h
  | cons s rest ih =>
    unfold runFrom
    by_cases hh : st.halted
    · simpa [hh] using h
    · simpa [hh] using ih _ (stepScene_keys_eq env st s h)

lemma stepScene_log_fst (env : RunEnv) (st : RunState) (s : ℕ) :
    (stepScene env st s).log.map Prod.fst = st.log.map Prod.fst ++ [s] := by
  unfold stepScene
  rcases env.engine s with _ | _
  · by_cases hp : env.persistOk s <;> simp [hp]
  · simp

lemma runFrom_log_fst (env : RunEnv) (l : List ℕ) (st : RunState) :
    ∃ k, (runFrom env st l).log.map Prod.fst = st.log.map Prod.fst ++ l.take k := by
  induction l generalizing st with
  | nil => exact ⟨0, by simp [runFrom]⟩
  | cons s rest ih =>
    unfold runFrom
    by_cases hh : st.halted
    · exact ⟨0, by simp [hh]⟩
    · obtain ⟨k, hk⟩ := ih (stepScene env st s)
      exact ⟨k + 1, by simp [hh, hk, stepScene_log_fst, List.take_succ_cons]⟩

lemma pending_sorted (keys avail : List ℕ) (limit : Option ℕ) :
    (pending keys avail limit).Sorted (· ≤ ·) := by
  unfold pending
  match limit with
  | none => exact List.sorted_insertionSort _ _
  | some n =>
    exact List.Pairwise.sublist (List.take_sublist _ _) (List.sorted_insertionSort _ _)

lemma mem_avail_of_mem_pending {keys avail : List ℕ} {limit : Option ℕ} {s : ℕ}
    (h : s ∈ pending keys avail limit) : s ∈ avail ∧ s ∉ keys := by
  unfold pending at h
  have hs : s ∈ List.insertionSort (· ≤ ·) (avail.filter (fun s => !decide (s ∈ keys))) := by
    match limit with
    | none => exact h
    | some n => exact (List.take_sublist _ _).mem h
  rw [List.mem_insertionSort] at hs
  have := List.mem_filter.mp hs
  simpa using this

lemma runFrom_success (env : RunEnv) (l : List ℕ) (st : RunState)
    (hh : st.halted = false)
    (hs : ∀ s ∈ l, (env.engine s).isOk = true ∧ env.persistOk s = true) :
    existing_keys (runFrom env st l).tables.value_table
        = existing_keys st.tables.value_table ++ l
    ∧ existing_keys (runFrom env st l).tables.fraction_table
        = existing_keys st.tables.fraction_table ++ l
    ∧ (runFrom env st l).log = st.log ++ l.map (fun s => (s, true))
    ∧ (runFrom env st l).halted = false := by
  induction l generalizing st with
  | nil => simp [runFrom, hh]
  | cons s rest ih =>
    have hs0 := hs s (List.mem_cons_self s rest)
    obtain ⟨va, fa, he⟩ : ∃ va fa, env.engine s = .ok va fa := by
      rcases hengine : env.engine s with ⟨va, fa⟩ | _
      · exact ⟨va, fa, rfl⟩
      · rw [hengine] at hs0; simp [EngineResult.isOk] at hs0
    have hstep : stepScene env st s = { st with
        tables := { value_table := st.tables.value_table ++ [⟨s, va⟩],
                    fraction_table := st.tables.fraction_table ++ [⟨s, fa⟩] },
        log := st.log ++ [(s, true)] } := by
      unfold stepScene
      rw [he]
      simp [hs0.2]
    unfold runFrom
    rw [hh]
    simp only [Bool.false_eq_true, if_false]
    rw [hstep]
    obtain ⟨h1, h2, h3, h4⟩ :=
      ih { st with
          tables := { value_table := st.tables.value_table ++ [⟨s, va⟩],
                      fraction_table := st.tables.fraction_table ++ [⟨s, fa⟩] },
          log := st.log ++ [(s, true)] } hh (fun x hx => hs x (List.mem_cons_of_mem _ hx))
    refine ⟨?_, ?_, ?_, h4⟩
    · rw [h1]; simp [existing_keys]
    · rw [h2]; simp [existing_keys]
    · rw [h3]; simp

/-- Claim C1: between runs the value table and the valid-fraction table of a
variable hold exactly the same row keys in the same order; every run — the
Merger appending to both tables or to neither — preserves this invariant.
(Modelled from the spec; the Python Merger sources are not in the
repository snapshot.) -/
theorem c1_pair_invariant (env : RunEnv) (avail : List ℕ) (limit : Option ℕ)
    (tables : TablePair)
    (h : existing_keys tables.value_table = existing_keys tables.fraction_table) :
    existing_keys (run env avail limit tables).tables.value_table
      = existing_keys (run env avail limit tables).tables.fraction_table := by
  unfold run
  exact runFrom_keys_eq env _ _ h

/-- Witness for the pair invariant: a run over three scenes in which scene 3
fails in the engine and scene 9 fails while persisting the pair. -/
theorem c1_pair_invariant_witness :
    existing_keys (TablePair.mk [] []).value_table
        = existing_keys (TablePair.mk [] []).fraction_table
    ∧ existing_keys (run ⟨fun s => if s = 3 then .engineError else .ok [1] [2],
          fun s => !decide (s = 9)⟩ [9, 3, 5] none ⟨[], []⟩).tables.value_table
      = existing_keys (run ⟨fun s => if s = 3 then .engineError else .ok [1] [2],
          fun s => !decide (s = 9)⟩ [9, 3, 5] none ⟨[], []⟩).tables.fraction_table :=
  ⟨rfl, c1_pair_invariant _ _ _ _ rfl⟩

/-- Claim C2: whatever order the file system lists the raster files in, the
scenes a run processes are in ascending Scene Identifier order.  (Modelled
from the spec; the Python run controller sources are not in the repository
snapshot.) -/
theorem c2_processing_order (env : RunEnv) (avail : List ℕ) (limit : Option ℕ)
    (tables : TablePair) :
    ((run env avail limit tables).log.map Prod.fst).Sorted (· ≤ ·) := by
  unfold run
  obtain ⟨k, hk⟩ := runFrom_log_fst env
    (pending (existing_keys tables.value_table) avail limit) ⟨tables, [], false⟩
  rw [hk]
  simp only [List.map_nil, List.nil_append]
  exact List.Pairwise.sublist (List.take_sublist _ _)
    (pending_sorted (existing_keys tables.value_table) avail limit)

lemma mem_pending_of_not_mem_keys {keys avail : List ℕ} {s : ℕ}
    (hsa : s ∈ avail) (hsk : s ∉ keys) : s ∈ pending keys avail none := by
  unfold pending
  rw [List.mem_insertionSort]
  exact List.mem_filter.mpr ⟨hsa, by simpa using hsk⟩

lemma pending_eq_nil_of_covered {keys avail : List ℕ}
    (h : ∀ s ∈ avail, s ∈ keys) : pending keys avail none = [] := by
  unfold pending
  have : avail.filter (fun s => !decide (s ∈ keys)) = [] :=
    List.filter_eq_nil_iff.mpr (fun a ha => by simpa using h a ha)
  rw [this]
  rfl

/-- Claim C3: when every available scene extracts successfully, `run()` is
idempotent — a second run over the same scenes finds every Scene Identifier
in `existing_keys()`, processes zero scenes and leaves both tables exactly
as the first run left them.  (Modelled from the spec; the Python run
controller sources are not in the repository snapshot.) -/
theorem c3_run_idempotent (env : RunEnv) (avail : List ℕ) (tables : TablePair)
    (hs : ∀ s ∈ avail, (env.engine s).isOk = true ∧ env.persistOk s = true) :
    (run env avail none (run env avail none tables).tables).tables
        = (run env avail none tables).tables
    ∧ (run env avail none (run env avail none tables).tables).log = [] := by
  have hsp : ∀ s ∈ pending (existing_keys tables.value_table) avail none,
      (env.engine s).isOk = true ∧ env.persistOk s = true :=
    fun s hsmem => hs s (mem_avail_of_mem_pending hsmem).1
  obtain ⟨h1, _h2, _h3, _h4⟩ :=
    runFrom_success env (pending (existing_keys tables.value_table) avail none)
      ⟨tables, [], false⟩ rfl hsp
  have hkeys : existing_keys (run env avail none tables).tables.value_table
      = existing_keys tables.value_table
        ++ pending (existing_keys tables.value_table) avail none := h1
  have hcov : ∀ s ∈ avail,
      s ∈ existing_keys (run env avail none tables).tables.value_table := by
    intro s hsa
    rw [hkeys]
    by_cases hk : s ∈ existing_keys tables.value_table
    · exact List.mem_append_left _ hk
    · exact List.mem_append_right _ (mem_pending_of_not_mem_keys hsa hk)
  have hnil : pending (existing_keys (run env avail none tables).tables.value_table)
      avail none = [] := pending_eq_nil_of_covered hcov
  constructor
  · show (runFrom env ⟨(run env avail none tables).tables, [], false⟩ _).tables = _
    rw [hnil]
    rfl
  · show (runFrom env ⟨(run env avail none tables).tables, [], false⟩ _).log = []
    rw [hnil]
    rfl

/-- Witness for idempotence: two scenes, both extracting successfully. -/
theorem c3_run_idempotent_witness :
    (∀ s ∈ [5, 3], ((RunEnv.mk (fun s => .ok [s] [1000]) (fun _ => true)).engine s).isOk = true
        ∧ (RunEnv.mk (fun s => .ok [s] [1000]) (fun _ => true)).persistOk s = true)
    ∧ ((run ⟨fun s => .ok [s] [1000], fun _ => true⟩ [5, 3] none
          (run ⟨fun s => .ok [s] [1000], fun _ => true⟩ [5, 3] none ⟨[], []⟩).tables).tables
        = (run ⟨fun s => .ok [s] [1000], fun _ => true⟩ [5, 3] none ⟨[], []⟩).tables
      ∧ (run ⟨fun s => .ok [s] [1000], fun _ => true⟩ [5, 3] none
          (run ⟨fun s => .ok [s] [1000], fun _ => true⟩ [5, 3] none ⟨[], []⟩).tables).log = []) :=
  ⟨by intro s _; exact ⟨rfl, rfl⟩,
   c3_run_idempotent _ _ _ (by intro s _; exact ⟨rfl, rfl⟩)⟩

lemma pending_triple {a b c : ℕ} {keys : List ℕ}
    (hab : a < b) (hbc : b < c)
    (ha : a ∉ keys) (hb : b ∉ keys) (hc : c ∉ keys) :
    pending keys [a, b, c] none = [a, b, c] := by
  unfold pending
  have hf : [a, b, c].filter (fun s => !decide (s ∈ keys)) = [a, b, c] := by
    refine List.filter_eq_self.mpr ?_
    intro x hx
    simp only [List.mem_cons, List.not_mem_nil, or_false] at hx
    rcases hx with rfl | rfl | rfl <;> simpa
  rw [hf]
  refine List.Sorted.insertionSort_eq ?_
  have h1 : List.Sorted (· ≤ ·) [c] := List.sorted_singleton c
  have h2 : List.Sorted (· ≤ ·) [b, c] := by
    rw [List.sorted_cons]
    refine ⟨fun x hx => ?_, h1⟩
    simp only [List.mem_singleton] at hx
    omega
  rw [List.sorted_cons]
  refine ⟨fun x hx => ?_, h2⟩
  simp only [List.mem_cons, List.mem_singleton, List.not_mem_nil, or_false] at hx
  rcases hx with rfl | rfl <;> omega

lemma not_mem_keys_append {x : ℕ} {t1 t2 : List CatalogRow}
    (h1 : x ∉ existing_keys t1) (h2 : x ∉ existing_keys t2) :
    x ∉ existing_keys (t1 ++ t2) := by
  rw [existing_keys, List.map_append]
  intro hm
  rcases List.mem_append.mp hm with h | h
  · exact h1 h
  · exact h2 h

/-- Claim C4: over scenes [A, B, C] where the engine fails on B and succeeds
on A and C, the run completes with A and C appended to both tables while B
is absent and logged as failed — a scene-scoped failure never aborts the
remaining work-list; but a failure while persisting the appended pair
(PairConsistencyError) halts the run at once, leaving the later scenes
unprocessed.  (Modelled from the spec; the Python run controller sources
are not in the repository snapshot.) -/
theorem c4_failure_isolation
    (env envP : RunEnv) (a b c : ℕ) (t : TablePair)
    (va fa vc fc vb fb : List ℤ)
    (hab : a < b) (hbc : b < c)
    (hfa : a ∉ existing_keys t.value_table) (hfb : b ∉ existing_keys t.value_table)
    (hfc : c ∉ existing_keys t.value_table)
    (hgb : b ∉ existing_keys t.fraction_table)
    (hea : env.engine a = .ok va fa) (heb : env.engine b = .engineError)
    (hec : env.engine c = .ok vc fc)
    (hpa : env.persistOk a = true) (hpc : env.persistOk c = true)
    (hPa : envP.engine a = .ok va fa) (hPb : envP.engine b = .ok vb fb)
    (hPpa : envP.persistOk a = true) (hPpb : envP.persistOk b = false) :
    (a ∈ existing_keys (run env [a, b, c] none t).tables.value_table
      ∧ a ∈ existing_keys (run env [a, b, c] none t).tables.fraction_table
      ∧ c ∈ existing_keys (run env [a, b, c] none t).tables.value_table
      ∧ c ∈ existing_keys (run env [a, b, c] none t).tables.fraction_table
      ∧ b ∉ existing_keys (run env [a, b, c] none t).tables.value_table
      ∧ b ∉ existing_keys (run env [a, b, c] none t).tables.fraction_table
      ∧ (b, false) ∈ (run env [a, b, c] none t).log
      ∧ (run env [a, b, c] none t).halted = false)
    ∧ ((run envP [a, b, c] none t).halted = true
      ∧ (run envP [a, b, c] none t).log.map Prod.fst = [a, b]
      ∧ c ∉ existing_keys (run envP [a, b, c] none t).tables.value_table) := by
  have hpend := pending_triple hab hbc hfa hfb hfc
  have hba : b ≠ a := hab.ne'
  have hbc' : b ≠ c := hbc.ne
  have hca : c ≠ a := (hab.trans hbc).ne'
  have hrunB : run env [a, b, c] none t =
      ⟨⟨t.value_table ++ [⟨a, va⟩, ⟨c, vc⟩],
        t.fraction_table ++ [⟨a, fa⟩, ⟨c, fc⟩]⟩,
       [(a, true), (b, false), (c, true)], false⟩ := by
    unfold run
    rw [hpend]
    simp [runFrom, stepScene, hea, heb, hec, hpa, hpc]
  have hrunP : run envP [a, b, c] none t =
      ⟨⟨t.value_table ++ [⟨a, va⟩], t.fraction_table ++ [⟨a, fa⟩]⟩,
       [(a, true), (b, false)], true⟩ := by
    unfold run
    rw [hpend]
    simp [runFrom, stepScene, hPa, hPb, hPpa, hPpb]
  rw [hrunB, hrunP]
  refine ⟨⟨?_, ?_, ?_, ?_, ?_, ?_, ?_, rfl⟩, rfl, rfl, ?_⟩
  · simp [existing_keys]
  · simp [existing_keys]
  · simp [existing_keys]
  · simp [existing_keys]
  · exact not_mem_keys_append hfb (by simp [existing_keys, hba, hbc'])
  · exact not_mem_keys_append hgb (by simp [existing_keys, hba, hbc'])
  · simp
  · exact not_mem_keys_append hfc (by simp [existing_keys, hca])

/-- Engine for the failure-isolation witness: scene 2 fails in the engine,
the other scenes succeed. -/
def wEnvB : RunEnv := ⟨fun s => if s = 2 then .engineError else .ok [0] [0], fun _ => true⟩

/-- Engine for the pair-fatality witness: every scene extracts, but the
pair persist fails on scene 2. -/
def wEnvP : RunEnv := ⟨fun _ => .ok [0] [0], fun s => !decide (s = 2)⟩

/-- Witness for failure isolation at scenes 1, 2, 3 over empty tables. -/
theorem c4_failure_isolation_witness :
    ((1 : ℕ) < 2 ∧ (2 : ℕ) < 3
      ∧ (1 : ℕ) ∉ existing_keys (TablePair.mk [] []).value_table
      ∧ wEnvB.engine 1 = .ok [0] [0] ∧ wEnvB.engine 2 = .engineError
      ∧ wEnvB.engine 3 = .ok [0] [0]
      ∧ wEnvB.persistOk 1 = true ∧ wEnvB.persistOk 3 = true
      ∧ wEnvP.engine 1 = .ok [0] [0] ∧ wEnvP.engine 2 = .ok [0] [0]
      ∧ wEnvP.persistOk 1 = true ∧ wEnvP.persistOk 2 = false)
    ∧ ((1 ∈ existing_keys (run wEnvB [1, 2, 3] none ⟨[], []⟩).tables.value_table
      ∧ 1 ∈ existing_keys (run wEnvB [1, 2, 3] none ⟨[], []⟩).tables.fraction_table
      ∧ 3 ∈ existing_keys (run wEnvB [1, 2, 3] none ⟨[], []⟩).tables.value_table
      ∧ 3 ∈ existing_keys (run wEnvB [1, 2, 3] none ⟨[], []⟩).tables.fraction_table
      ∧ 2 ∉ existing_keys (run wEnvB [1, 2, 3] none ⟨[], []⟩).tables.value_table
      ∧ 2 ∉ existing_keys (run wEnvB [1, 2, 3] none ⟨[], []⟩).tables.fraction_table
      ∧ (2, false) ∈ (run wEnvB [1, 2, 3] none ⟨[], []⟩).log
      ∧ (run wEnvB [1, 2, 3] none ⟨[], []⟩).halted = false)
    ∧ ((run wEnvP [1, 2, 3] none ⟨[], []⟩).halted = true
      ∧ (run wEnvP [1, 2, 3] none ⟨[], []⟩).log.map Prod.fst = [1, 2]
      ∧ 3 ∉ existing_keys (run wEnvP [1, 2, 3] none ⟨[], []⟩).tables.value_table)) :=
  ⟨⟨by decide, by decide, by simp [existing_keys], rfl, rfl, rfl, rfl, rfl, rfl, rfl, rfl, rfl⟩,
   c4_failure_isolation wEnvB wEnvP 1 2 3 ⟨[], []⟩ [0] [0] [0] [0] [0] [0]
     (by decide) (by decide) (by simp [existing_keys]) (by simp [existing_keys])
     (by simp [existing_keys]) (by simp [existing_keys])
     rfl rfl rfl rfl rfl rfl rfl rfl rfl⟩

lemma filter_not_mem_of_append {tk dr : List ℕ} (hd : List.Disjoint tk dr) :
    (tk ++ dr).filter (fun s => !decide (s ∈ tk)) = dr := by
  rw [List.filter_append,
    List.filter_eq_nil_iff.mpr (fun a ha => by simp [ha]),
    List.filter_eq_self.mpr (fun a ha => by
      have hnotin : a ∉ tk := fun h => hd h ha
      simp [hnotin])]
  simp

/-- Claim C5: `run(limit = n)` with more than n pending scenes processes
exactly the n chronologically earliest pending scenes, and afterwards the
pending work-list is exactly the remainder of the original one.  (Modelled
from the spec; the Python run controller sources are not in the repository
snapshot.) -/
theorem c5_limit_caps_batch (env : RunEnv) (avail : List ℕ) (t : TablePair) (n : ℕ)
    (hnd : avail.Nodup)
    (hs : ∀ s ∈ avail, (env.engine s).isOk = true ∧ env.persistOk s = true)
    (hlt : n < (pending (existing_keys t.value_table) avail none).length) :
    ((run env avail (some n) t).log.map Prod.fst
        = (pending (existing_keys t.value_table) avail none).take n)
    ∧ (pending (existing_keys (run env avail (some n) t).tables.value_table) avail none
        = (pending (existing_keys t.value_table) avail none).drop n) := by
  have hps : pending (existing_keys t.value_table) avail (some n)
      = (pending (existing_keys t.value_table) avail none).take n := rfl
  have hsl : ∀ s ∈ (pending (existing_keys t.value_table) avail none).take n,
      (env.engine s).isOk = true ∧ env.persistOk s = true := by
    intro s hsm
    exact hs s (@mem_avail_of_mem_pending (existing_keys t.value_table) avail (some n) s hsm).1
  obtain ⟨h1, _h2, h3, _h4⟩ := runFrom_success env
    ((pending (existing_keys t.value_table) avail none).take n) ⟨t, [], false⟩ rfl hsl
  have hrun : run env avail (some n) t
      = runFrom env ⟨t, [], false⟩
          ((pending (existing_keys t.value_table) avail none).take n) := by
    unfold run
    rw [hps]
  constructor
  · rw [hrun, h3]
    simp only [List.nil_append, List.map_map]
    rw [show (Prod.fst ∘ fun s : ℕ => (s, true)) = id from rfl, List.map_id]
  · rw [hrun]
    have hkeys1 : existing_keys (runFrom env ⟨t, [], false⟩
          ((pending (existing_keys t.value_table) avail none).take n)).tables.value_table
        = existing_keys t.value_table
          ++ (pending (existing_keys t.value_table) avail none).take n := h1
    rw [hkeys1]
    -- the pending list is a sorted permutation of the filtered directory list
    have hpnd : (pending (existing_keys t.value_table) avail none).Nodup := by
      unfold pending
      exact ((List.perm_insertionSort _ _).nodup_iff).mpr (hnd.filter _)
    have hsorted : (pending (existing_keys t.value_table) avail none).Sorted (· ≤ ·) :=
      pending_sorted _ avail none
    -- filtering against the appended keys splits into the two filters
    have hsplit : avail.filter (fun s => !decide (s ∈ existing_keys t.value_table
            ++ (pending (existing_keys t.value_table) avail none).take n))
        = (avail.filter (fun s => !decide (s ∈ existing_keys t.value_table))).filter
            (fun s => !decide
              (s ∈ (pending (existing_keys t.value_table) avail none).take n)) := by
      rw [List.filter_filter]
      refine List.filter_congr ?_
      intro s _
      by_cases h1 : s ∈ existing_keys t.value_table <;>
        by_cases h2 : s ∈ (pending (existing_keys t.value_table) avail none).take n <;>
        simp [h1, h2]
    have hfp : (pending (existing_keys t.value_table) avail none).filter
          (fun s => !decide
            (s ∈ (pending (existing_keys t.value_table) avail none).take n))
        = (pending (existing_keys t.value_table) avail none).drop n := by
      have hd : List.Disjoint
          ((pending (existing_keys t.value_table) avail none).take n)
          ((pending (existing_keys t.value_table) avail none).drop n) :=
        List.disjoint_take_drop hpnd (le_refl n)
      calc (pending (existing_keys t.value_table) avail none).filter
            (fun s => !decide
              (s ∈ (pending (existing_keys t.value_table) avail none).take n))
          = ((pending (existing_keys t.value_table) avail none).take n
              ++ (pending (existing_keys t.value_table) avail none).drop n).filter
              (fun s => !decide
                (s ∈ (pending (existing_keys t.value_table) avail none).take n)) := by
            rw [List.take_append_drop]
        _ = (pending (existing_keys t.value_table) avail none).drop n :=
            filter_not_mem_of_append hd
    have hXperm : List.Perm
        (avail.filter (fun s => !decide (s ∈ existing_keys t.value_table
            ++ (pending (existing_keys t.value_table) avail none).take n)))
        ((pending (existing_keys t.value_table) avail none).drop n) := by
      rw [hsplit, ← hfp]
      refine List.Perm.filter _ ?_
      exact (List.perm_insertionSort _ _).symm
    have s2 : ((pending (existing_keys t.value_table) avail none).drop n).Sorted (· ≤ ·) :=
      List.Pairwise.sublist (List.drop_sublist _ _) hsorted
    show List.insertionSort (· ≤ ·) _ = _
    exact List.eq_of_perm_of_sorted
      ((List.perm_insertionSort _ _).trans hXperm)
      (List.sorted_insertionSort _ _) s2

/-- Witness for the limit claim: limit 1 with three pending scenes processes
exactly the chronologically earliest one and leaves the other two pending. -/
theorem c5_limit_caps_batch_witness :
    ([7, 2, 9] : List ℕ).Nodup
    ∧ (∀ s ∈ [7, 2, 9], ((RunEnv.mk (fun s => .ok [s] [1000]) (fun _ => true)).engine s).isOk
          = true
        ∧ (RunEnv.mk (fun s => .ok [s] [1000]) (fun _ => true)).persistOk s = true)
    ∧ 1 < (pending (existing_keys (TablePair.mk [] []).value_table) [7, 2, 9] none).length
    ∧ ((run ⟨fun s => .ok [s] [1000], fun _ => true⟩ [7, 2, 9] (some 1) ⟨[], []⟩).log.map
          Prod.fst
        = (pending (existing_keys (TablePair.mk [] []).value_table) [7, 2, 9] none).take 1)
    ∧ (pending (existing_keys (run ⟨fun s => .ok [s] [1000], fun _ => true⟩ [7, 2, 9]
            (some 1) ⟨[], []⟩).tables.value_table) [7, 2, 9] none
        = (pending (existing_keys (TablePair.mk [] []).value_table) [7, 2, 9] none).drop 1) := by
  have h := c5_limit_caps_batch ⟨fun s => .ok [s] [1000], fun _ => true⟩ [7, 2, 9] ⟨[], []⟩ 1
    (by decide) (by intro s _; exact ⟨rfl, rfl⟩) (by decide)
  exact ⟨by decide, by intro s _; exact ⟨rfl, rfl⟩, by decide, h.1, h.2⟩

/-- In-memory state of one HidroCLVariable: the rows of the persisted
database file and the cached `observations` frame.  The Python sources are
not in the repository snapshot; the behaviour is taken from the recorded
notebook runs (nas_test_mod10a2_extraction cells 6 to 9 and the imerg
notebook cells 4 to 7): `run_extraction` appends rows to the database file
through `write_line`, and the cached `observations` change only when
`checkdatabase()` reloads the file. -/
structure HVarState where
  database : List CatalogRow
  observations : List CatalogRow
deriving DecidableEq

/-- `write_line` as recorded by the notebooks: append the new row to the
persisted database file, leaving the cached observations untouched. -/
def write_line (st : HVarState) (row : CatalogRow) : HVarState :=
  { st with database := st.database ++ [row] }

/-- `checkdatabase` as recorded by the notebooks: reload the cached
observations from the persisted database file. -/
def checkdatabase (st : HVarState) : HVarState :=
  { st with observations := st.database }

/-- Claim C9 counterexample: appending a scene row does not put the row into
the cached observations — the notebooks must call `checkdatabase()` before
the new rows appear. -/
theorem c9_counterexample_stale_cache :
    ¬ ((⟨7, [1]⟩ : CatalogRow) ∈ (write_line ⟨[], []⟩ ⟨7, [1]⟩).observations) := by
  simp [write_line]

/-- Claim C9 as amended: a run appends the scene row to the persistent
database only, leaving the cached observations unchanged; the cache holds
the new row exactly after an explicit `checkdatabase()` reload. -/
theorem c9_reload_semantics (st : HVarState) (row : CatalogRow) :
    (write_line st row).observations = st.observations
    ∧ (checkdatabase (write_line st row)).observations = st.database ++ [row]
    ∧ row ∈ (checkdatabase (write_line st row)).observations := by
  refine ⟨rfl, rfl, ?_⟩
  show row ∈ st.database ++ [row]
  simp

end HidroCL
